import Mathlib

/-!
Verification development for the weather-monitor heatmap pipeline
(`src/main.py`).  The computational core (grid building, scatter-to-grid
interpolation, polygon land masking, field compositing) is shallowly
embedded over exact rational arithmetic; the data-processing stage
(`process_data`, `calculate_apparent_temp`) is embedded over the reals
because the apparent-temperature formula uses `exp`.
-/

namespace Heatmap

/-- A planar point (longitude `x`, latitude `y`); coordinates are exact
rationals, modelling the real-valued geometry of the source. -/
structure Pt where
  x : ℚ
  y : ℚ
deriving DecidableEq

/-- Cross product `(a - o) × (b - o)`; positive when `o a b` makes a left
turn.  Used both for triangle orientation tests (interpolation) and for the
ray-crossing predicate (masking). -/
def cross (o a b : Pt) : ℚ :=
  (a.x - o.x) * (b.y - o.y) - (a.y - o.y) * (b.x - o.x)

/-- A polygon: outer ring plus interior exclusion rings (holes), as in the
GeoJSON county geometry consumed by `generate_heatmap`.  A ring is a closed
vertex list; the closing edge from the last vertex back to the first is
implicit. -/
structure Polygon where
  outer : List Pt
  holes : List (List Pt)
deriving DecidableEq

/-- Edges of a closed ring: consecutive vertex pairs, wrapping around. -/
def edges (ring : List Pt) : List (Pt × Pt) :=
  ring.zip (ring.rotate 1)

/-- Standard ray-casting crossing predicate for the horizontal ray from `p`
towards `+x` against edge `(a, b)`: the edge must straddle the ray's
height, and the edge's intersection with that height must lie strictly to
the right of `p`.  The intersection comparison
`p.x < a.x + (p.y - a.y)·(b.x - a.x)/(b.y - a.y)` is written
cross-multiplied by the sign of `b.y - a.y` to stay division-free. -/
def crossesRay (p : Pt) (e : Pt × Pt) : Bool :=
  let a := e.1
  let b := e.2
  (decide (a.y > p.y) != decide (b.y > p.y)) &&
    (if b.y > a.y then decide (0 < cross a b p) else decide (cross a b p < 0))

/-- Even–odd point-in-ring test: `p` is inside the ring iff the rightward
ray from `p` crosses an odd number of ring edges.  This models the
containment semantics of the shapely `within` test used at
`src/main.py:166`. -/
def inRing (p : Pt) (ring : List Pt) : Bool :=
  ((edges ring).countP (crossesRay p)) % 2 == 1

/-- Point-in-polygon: inside the outer ring and inside no hole — holes are
excluded via the same containment rule applied with inverted sense. -/
def inPolygon (p : Pt) (poly : Polygon) : Bool :=
  inRing p poly.outer && poly.holes.all (fun h => !(inRing p h))

/-- Number of adjacent positions at which a boolean labelling changes
along a path of vertices (used to count ray/edge crossings of a closed
ring). -/
def flips (b : α → Bool) : List α → ℕ
  | [] => 0
  | [_] => 0
  | x :: y :: t => (if b x != b y then 1 else 0) + flips b (y :: t)

/-- Axis-aligned bounding box. -/
structure Box where
  minx : ℚ
  maxx : ℚ
  miny : ℚ
  maxy : ℚ
deriving DecidableEq

/-- Extend a box by one more point. -/
def boxAdd (b : Box) (q : Pt) : Box :=
  ⟨min b.minx q.x, max b.maxx q.x, min b.miny q.y, max b.maxy q.y⟩

/-- Axis-aligned bounding box of a ring's vertices. -/
def ringBox : List Pt → Box
  | [] => ⟨0, 0, 0, 0⟩
  | v :: vs => vs.foldl boxAdd ⟨v.x, v.x, v.y, v.y⟩

/-- Bounding box of a polygon (holes lie inside the outer ring, so the
outer ring's box suffices). -/
def polyBox (poly : Polygon) : Box :=
  ringBox poly.outer

/-- Whether two axis-aligned boxes intersect. -/
def boxIntersects (b c : Box) : Bool :=
  decide (b.minx ≤ c.maxx) && decide (c.minx ≤ b.maxx) &&
    decide (b.miny ≤ c.maxy) && decide (c.miny ≤ b.maxy)

/-- Grow a box outward by a margin on every side. -/
def expandBox (b : Box) (eps : ℚ) : Box :=
  ⟨b.minx - eps, b.maxx + eps, b.miny - eps, b.maxy + eps⟩

/-- The rectangular region over which the lattice is built
(`min_lon, max_lon, min_lat, max_lat` at `src/main.py:143-144`). -/
structure Region where
  minx : ℚ
  maxx : ℚ
  miny : ℚ
  maxy : ℚ
deriving DecidableEq

/-- Region invariant: a non-degenerate bounding box. -/
def Region.valid (r : Region) : Prop :=
  r.minx < r.maxx ∧ r.miny < r.maxy

/-- The region as a `Box` (for the bounding-box pre-filter). -/
def regionBox (r : Region) : Box :=
  ⟨r.minx, r.maxx, r.miny, r.maxy⟩

/-- The lattice point at grid index `(i, j)`.  Models
`np.mgrid[min_lon:max_lon:500j, min_lat:max_lat:500j]`
(`src/main.py:146`): a complex step count `nj` produces `n` evenly spaced
values including both endpoints, i.e. spacing `(max - min)/(n - 1)`. -/
def latticePt (r : Region) (rows cols : ℕ) (i j : ℕ) : Pt :=
  ⟨r.minx + (i : ℚ) * ((r.maxx - r.minx) / ((rows : ℚ) - 1)),
   r.miny + (j : ℚ) * ((r.maxy - r.miny) / ((cols : ℚ) - 1))⟩

/-- All lattice points, row-major. -/
def latticePoints (r : Region) (rows cols : ℕ) : List Pt :=
  (List.range rows).flatMap (fun i => (List.range cols).map (fun j => latticePt r rows cols i j))

/-- One sensor sample: coordinates plus scalar value
(`df_main['lon'], df_main['lat'], df_main['at']` at `src/main.py:150-152`). -/
structure Sample where
  x : ℚ
  y : ℚ
  v : ℚ
deriving DecidableEq

/-- Coordinates of a sample. -/
def spt (s : Sample) : Pt := ⟨s.x, s.y⟩

/-- Membership of `p` in the closed segment from `a` to `b`. -/
def onSeg (a b p : Pt) : Bool :=
  decide (cross a b p = 0) &&
    decide (min a.x b.x ≤ p.x) && decide (p.x ≤ max a.x b.x) &&
    decide (min a.y b.y ≤ p.y) && decide (p.y ≤ max a.y b.y)

/-- Membership of `p` in the closed triangle `a b c` (sign-consistency of
the three edge cross products), degenerating to segment membership when
the triangle is flat. -/
def inTriangle (a b c p : Pt) : Bool :=
  if cross a b c = 0 then
    onSeg a b p || onSeg b c p || onSeg a c p
  else
    (decide (0 ≤ cross a b p) && decide (0 ≤ cross b c p) && decide (0 ≤ cross c a p)) ||
      (decide (cross a b p ≤ 0) && decide (cross b c p ≤ 0) && decide (cross c a p ≤ 0))

/-- All ordered pairs of distinct-position elements. -/
def distinctPairs : List α → List (α × α)
  | [] => []
  | x :: xs => (xs.map (fun y => (x, y))) ++ distinctPairs xs

/-- All ordered triples of distinct-position elements. -/
def distinctTriples : List α → List (α × α × α)
  | [] => []
  | x :: xs => ((distinctPairs xs).map (fun q => (x, q.1, q.2))) ++ distinctTriples xs

/-- Convex-hull membership for a finite sample set, via Carathéodory: `p`
lies in the hull iff it lies in a (possibly degenerate) triangle on three
of the samples. -/
def inHull (samples : List Sample) (p : Pt) : Bool :=
  (distinctTriples samples).any (fun t => inTriangle (spt t.1) (spt t.2.1) (spt t.2.2) p)

/-- Value of the affine (barycentric) interpolant of the three samples at
`p`; on a degenerate triangle the first sample's value is returned (the
degenerate branch is unreachable for the non-collinear inputs the
interpolator accepts). -/
def triValue (a b c : Sample) (p : Pt) : ℚ :=
  let d := cross (spt a) (spt b) (spt c)
  if d = 0 then a.v
  else
    (cross (spt b) (spt c) p * a.v + cross (spt c) (spt a) p * b.v +
      cross (spt a) (spt b) p * c.v) / d

/-- Model of `scipy.interpolate.griddata(..., method='linear',
fill_value=np.nan)` (`src/main.py:150-156`): piecewise-linear
interpolation over a triangulation of the sample coordinates, defined
exactly on the convex hull of the samples, `missing` (here `none`)
outside it.  The choice of containing triangle abstracts the library's
Delaunay triangulation; definedness — the only aspect the properties
below depend on — agrees exactly. -/
def griddataLinear (samples : List Sample) (p : Pt) : Option ℚ :=
  match (distinctTriples samples).find?
      (fun t => inTriangle (spt t.1) (spt t.2.1) (spt t.2.2) p) with
  | some t => some (triValue t.1 t.2.1 t.2.2 p)
  | none => none

/-- Whether every triple of samples is collinear (degenerate geometry, on
which the library's triangulation fails). -/
def allCollinear (samples : List Sample) : Bool :=
  (distinctTriples samples).all (fun t => cross (spt t.1) (spt t.2.1) (spt t.2.2) = 0)

/-- Error taxonomy of the pipeline. -/
inductive CoreError where
  | invalidRegion
  | insufficientSamples
  | degenerateSamples
  | emptyBoundary
  | shapeMismatch
deriving DecidableEq

/-- A raster of optional values aligned with the lattice (`grid_z`);
`none` is the `missing` sentinel (`np.nan` in the source). -/
structure FieldGrid where
  rows : ℕ
  cols : ℕ
  cell : ℕ → ℕ → Option ℚ

/-- A boolean raster aligned with the lattice (`mask_grid`). -/
structure MaskGrid where
  rows : ℕ
  cols : ℕ
  cell : ℕ → ℕ → Bool

/-- The scatter interpolator (`griddata` call at `src/main.py:150-156`):
with fewer than 3 samples (or an entirely collinear sample set) the
library's triangulation raises, aborting the computation — modelled as an
error result; otherwise the primary linear pass is evaluated at every
lattice point.  No fallback or merge pass follows in the source: cells
outside the convex hull keep the `NaN` fill value. -/
def interpolate (samples : List Sample) (r : Region) (rows cols : ℕ) :
    Except CoreError FieldGrid :=
  if samples.length < 3 then .error .insufficientSamples
  else if allCollinear samples then .error .degenerateSamples
  else .ok ⟨rows, cols, fun i j => griddataLinear samples (latticePt r rows cols i j)⟩

/-- Cell lookup through the interpolator's `Except` wrapper: `none` when
the computation aborted, `some c` with the cell's content otherwise. -/
def fieldCell (res : Except CoreError FieldGrid) (i j : ℕ) : Option (Option ℚ) :=
  match res with
  | .error _ => none
  | .ok f => some (f.cell i j)

/-- Pointwise land test modelling `union_all()` followed by `within`
(`src/main.py:139` and `src/main.py:166`): membership in the union of the
polygons' regions, folded one polygon at a time. -/
def unionWithin (mp : List Polygon) (p : Pt) : Bool :=
  mp.foldl (fun acc poly => acc || inPolygon p poly) false

/-- The land-mask raster over the lattice (`mask_grid` at
`src/main.py:161-168`). -/
def buildMask (r : Region) (rows cols : ℕ) (mp : List Polygon) : MaskGrid :=
  ⟨rows, cols, fun i j => unionWithin mp (latticePt r rows cols i j)⟩

/-- Modelled from the spec: the bounding-box pre-filtered mask of §4.3,
absent from `src/main.py` (which tests every lattice point against the
unioned geometry); polygons whose bounding box does not intersect the
lattice region — grown by a small safety margin `eps` — are skipped
entirely, the rest are tested and combined by logical OR. -/
def maskFilteredAt (regionWithMargin : Box) (mp : List Polygon) (p : Pt) : Bool :=
  (mp.filter (fun poly => boxIntersects (polyBox poly) regionWithMargin)).any
    (fun poly => inPolygon p poly)

/-- The field compositor (`grid_z[~mask_grid] = np.nan` at
`src/main.py:171`): keep the field value where the mask is true, force
`missing` where it is false; shape disagreement between the two rasters is
a fatal error. -/
def compose (f : FieldGrid) (m : MaskGrid) : Except CoreError FieldGrid :=
  if f.rows = m.rows ∧ f.cols = m.cols then
    .ok ⟨f.rows, f.cols, fun i j => if m.cell i j then f.cell i j else none⟩
  else .error .shapeMismatch

/-- A constant field of the given shape. -/
def constField (rows cols : ℕ) (v : ℚ) : FieldGrid :=
  ⟨rows, cols, fun _ _ => some v⟩

/-- A mask that is true only at index `(0, 0)`. -/
def maskOnly00 (rows cols : ℕ) : MaskGrid :=
  ⟨rows, cols, fun i j => decide (i = 0) && decide (j = 0)⟩

/-- Largest argument for which IEEE-double `math.exp` does not overflow
(`log(DBL_MAX)` ≈ 709.78): `math.exp x` raises `OverflowError` for larger
arguments.  Used to model the overflow `None` path of
`calculate_apparent_temp`'s `try/except`. -/
noncomputable def exp_overflow_bound : ℝ := 709.782712893384

/-- Australian apparent temperature (`calculate_apparent_temp` at
`src/main.py:52-65`): humidity is clamped to `[0, 100]`, wind speed to be
non-negative, then `at = temp + 0.33·e − 0.70·ws − 4.00` with the vapour
pressure `e = (humid/100)·6.105·exp(17.27·temp/(237.7 + temp))`.  The
`try/except` returning `None` is modelled by guards for its two reachable
exceptions: `ZeroDivisionError` at the pole `temp = −237.7`, and
`OverflowError` from `math.exp` when the exponent exceeds the
double-precision bound (which happens for `temp` in about
`(−243.63, −237.7)`, regardless of humidity, since `math.exp` is evaluated
before the humidity multiplier).  Only the sub-ulp placement of the float
overflow threshold is beyond the real-valued model. -/
noncomputable def calculate_apparent_temp (temp humid wind_speed : ℝ) : Option ℝ :=
  if 237.7 + temp = 0 then none
  else if exp_overflow_bound < (17.27 * temp) / (237.7 + temp) then none
  else
    some (temp +
      0.33 * ((max 0 (min 100 humid) / 100) * 6.105 *
        Real.exp ((17.27 * temp) / (237.7 + temp))) -
      0.70 * max wind_speed 0 - 4.00)

/-- One raw station record as consumed by `process_data`
(`src/main.py:92-99`); the numeric fields are `none` when the source
string fails to parse as a float (the `ValueError` path of the
`try/except`). -/
structure RawRecord where
  name : String
  lat : Option ℝ
  lon : Option ℝ
  temp : Option ℝ
  humid : Option ℝ
  wind : Option ℝ
  city : String
  town : String

/-- One processed record (`data_point` at `src/main.py:109-117`). -/
structure DataPoint where
  name : String
  lat : ℝ
  lon : ℝ
  temp : ℝ
  atemp : ℝ
  city : String
  town : String

/-- Destination DataFrame of a processed record. -/
inductive Route where
  | mainland
  | km
deriving DecidableEq

/-- Kinmen/Matsu county names (`src/main.py:87`). -/
def km_matsu_counties : List String := ["金門縣", "連江縣"]

/-- Per-record body of the `process_data` loop (`src/main.py:92-127`):
parse the five numeric fields (skip on failure), drop instrument-fault
extremes (`temp` outside `[-15, 55]` or `humid` outside `[0, 100]`), skip
when the apparent temperature is `None`, then route Kinmen/Matsu counties
to the island DataFrame regardless of coordinates and keep other stations
only inside the mainland coordinate window. -/
noncomputable def processRecord (rec : RawRecord) : Option (Route × DataPoint) :=
  match rec.lat, rec.lon, rec.temp, rec.humid, rec.wind with
  | some lat, some lon, some temp, some humid, some wind =>
    if temp < -15 ∨ temp > 55 ∨ humid < 0 ∨ humid > 100 then none
    else
      match calculate_apparent_temp temp humid wind with
      | none => none
      | some a =>
        let dp : DataPoint := ⟨rec.name, lat, lon, temp, a, rec.city, rec.town⟩
        if rec.city ∈ km_matsu_counties then some (.km, dp)
        else if 119.0 ≤ lon ∧ lon ≤ 122.5 ∧ 21.5 ≤ lat ∧ lat ≤ 25.5 then
          some (.mainland, dp)
        else none
  | _, _, _, _, _ => none

/-- `process_data` (`src/main.py:80-130`): fold the per-record step over
the record list, returning the mainland and Kinmen/Matsu DataFrames in
input order. -/
noncomputable def process_data : List RawRecord → List DataPoint × List DataPoint
  | [] => ([], [])
  | rec :: recs =>
    let rest := process_data recs
    match processRecord rec with
    | none => rest
    | some (.mainland, dp) => (dp :: rest.1, rest.2)
    | some (.km, dp) => (rest.1, dp :: rest.2)

/-- A concrete in-range mainland station record, used to exercise
`process_data` on a closed input. -/
noncomputable def sampleRawRecord : RawRecord :=
  ⟨"S1", some 23.5, some 121, some 0, some 0, some 0, "臺北市", "T"⟩

/-- The data point `process_data` produces from `sampleRawRecord`. -/
noncomputable def sampleDataPoint : DataPoint :=
  ⟨"S1", 23.5, 121, 0,
    0 + 0.33 * ((max 0 (min 100 (0 : ℝ)) / 100) * 6.105 *
      Real.exp ((17.27 * 0) / (237.7 + 0))) - 0.70 * max 0 0 - 4.00,
    "臺北市", "T"⟩

theorem cast_pred_q {n : ℕ} (h : 2 ≤ n) : ((n - 1 : ℕ) : ℚ) = (n : ℚ) - 1 := by
  have h1 : 1 ≤ n := le_trans (by norm_num) h
  push_cast [h1]
  ring

theorem cast_pred_ne_zero {n : ℕ} (h : 2 ≤ n) : (n : ℚ) - 1 ≠ 0 := by
  have : (2 : ℚ) ≤ (n : ℚ) := by exact_mod_cast h
  linarith

/-- C7: for every valid region and every `rows, cols ≥ 2`, the lattice has
exactly `rows × cols` points, its extreme indices land exactly on the
region's min/max corners, and consecutive points are spaced uniformly by
`dx = (max_x − min_x)/(rows − 1)` and `dy = (max_y − min_y)/(cols − 1)`. -/
theorem lattice_shape_invariant (r : Region) (rows cols : ℕ)
    (_hv : r.valid) (hr : 2 ≤ rows) (hc : 2 ≤ cols) :
    (latticePoints r rows cols).length = rows * cols ∧
    latticePt r rows cols 0 0 = ⟨r.minx, r.miny⟩ ∧
    latticePt r rows cols (rows - 1) (cols - 1) = ⟨r.maxx, r.maxy⟩ ∧
    (∀ i j, (latticePt r rows cols (i + 1) j).x - (latticePt r rows cols i j).x
      = (r.maxx - r.minx) / ((rows : ℚ) - 1)) ∧
    (∀ i j, (latticePt r rows cols i (j + 1)).y - (latticePt r rows cols i j).y
      = (r.maxy - r.miny) / ((cols : ℚ) - 1)) := by
  refine ⟨?_, ?_, ?_, ?_, ?_⟩
  · simp only [latticePoints, List.length_flatMap]
    have hmap : (List.map
        (List.length ∘ fun i => List.map (fun j => latticePt r rows cols i j) (List.range cols))
        (List.range rows)) = List.map (fun _ => cols) (List.range rows) := by
      apply List.map_congr_left
      intro i _
      simp
    rw [hmap, List.map_const', List.sum_replicate, smul_eq_mul, List.length_range,
      Nat.mul_comm]
  · simp [latticePt]
  · have hrne := cast_pred_ne_zero hr
    have hcne := cast_pred_ne_zero hc
    simp only [latticePt, Pt.mk.injEq, cast_pred_q hr, cast_pred_q hc]
    constructor
    · field_simp
    · field_simp
  · intro i j
    simp only [latticePt]
    push_cast
    ring
  · intro i j
    simp only [latticePt]
    push_cast
    ring

/-- Witness for `lattice_shape_invariant` at the concrete region
`[0,1] × [0,1]` with a `2 × 2` lattice. -/
theorem lattice_shape_invariant_witness :
    (latticePoints ⟨0, 1, 0, 1⟩ 2 2).length = 2 * 2 ∧
    latticePt ⟨0, 1, 0, 1⟩ 2 2 1 1 = ⟨1, 1⟩ := by
  have h := lattice_shape_invariant ⟨0, 1, 0, 1⟩ 2 2 ⟨by norm_num, by norm_num⟩
    (le_refl 2) (le_refl 2)
  exact ⟨h.1, h.2.2.1⟩

/-- C4: composing a field with a mask of the same shape yields the field's
value exactly where the mask is true and `missing` where it is false; in
particular an all-`10` field composed with the mask that is true only at
`(0,0)` yields `10` at `(0,0)` and `missing` at every other index. -/
theorem compositor_correct (f : FieldGrid) (m : MaskGrid)
    (h1 : f.rows = m.rows) (h2 : f.cols = m.cols) :
    (∃ g, compose f m = .ok g ∧
      ∀ i j, g.cell i j = if m.cell i j then f.cell i j else none) ∧
    (∀ rows cols, ∃ g, compose (constField rows cols 10) (maskOnly00 rows cols) = .ok g ∧
      g.cell 0 0 = some 10 ∧ ∀ i j, ¬(i = 0 ∧ j = 0) → g.cell i j = none) := by
  constructor
  · refine ⟨⟨f.rows, f.cols, fun i j => if m.cell i j then f.cell i j else none⟩, ?_, ?_⟩
    · simp [compose, h1, h2]
    · intro i j
      rfl
  · intro rows cols
    refine ⟨⟨rows, cols, fun i j => if (maskOnly00 rows cols).cell i j
        then (constField rows cols 10).cell i j else none⟩, ?_, ?_, ?_⟩
    · simp [compose, constField, maskOnly00]
    · rfl
    · intro i j hij
      have hm : (decide (i = 0) && decide (j = 0)) = false := by
        rcases Decidable.not_and_iff_or_not.mp hij with h | h <;> simp [h]
      simp [maskOnly00, constField, hm]

/-- Witness for `compositor_correct` on a concrete `2 × 2` field/mask. -/
theorem compositor_correct_witness :
    (∃ g, compose (constField 2 2 7) ⟨2, 2, fun i _ => decide (i = 0)⟩ = .ok g ∧
      ∀ i j, g.cell i j = if (⟨2, 2, fun i _ => decide (i = 0)⟩ : MaskGrid).cell i j
        then (constField 2 2 7).cell i j else none) := by
  exact (compositor_correct (constField 2 2 7) ⟨2, 2, fun i _ => decide (i = 0)⟩ rfl rfl).1

/-- C5: the interpolator fails with `InsufficientSamples` on every input
with fewer than 3 samples, producing an error rather than a field. -/
theorem insufficient_samples_error (samples : List Sample) (r : Region) (rows cols : ℕ)
    (h : samples.length < 3) :
    interpolate samples r rows cols = .error .insufficientSamples := by
  simp [interpolate, h]

/-- Witness for `insufficient_samples_error` with two concrete samples. -/
theorem insufficient_samples_error_witness :
    interpolate [⟨0, 0, 1⟩, ⟨1, 1, 2⟩] ⟨0, 1, 0, 1⟩ 4 4 = .error .insufficientSamples :=
  insufficient_samples_error [⟨0, 0, 1⟩, ⟨1, 1, 2⟩] ⟨0, 1, 0, 1⟩ 4 4 (by decide)

theorem unionWithin_foldl (mp : List Polygon) (p : Pt) (acc : Bool) :
    mp.foldl (fun a poly => a || inPolygon p poly) acc = (acc || mp.any (fun poly => inPolygon p poly)) := by
  induction mp generalizing acc with
  | nil => simp
  | cons poly mps ih => simp [List.foldl_cons, ih, Bool.or_assoc]

theorem unionWithin_eq_any (mp : List Polygon) (p : Pt) :
    unionWithin mp p = mp.any (fun poly => inPolygon p poly) := by
  simpa using unionWithin_foldl mp p false

theorem maskCell_true_iff (r : Region) (rows cols : ℕ) (mp : List Polygon) (i j : ℕ) :
    (buildMask r rows cols mp).cell i j = true ↔
      ∃ poly ∈ mp, inPolygon (latticePt r rows cols i j) poly = true := by
  rw [show (buildMask r rows cols mp).cell i j = unionWithin mp (latticePt r rows cols i j) from rfl,
    unionWithin_eq_any]
  exact List.any_eq_true

/-- C3: the mask is true at a lattice point iff the point lies inside at
least one polygon of the multi-polygon — the folded union of per-polygon
containment results is the logical OR of them. -/
theorem mask_union_semantics (r : Region) (rows cols : ℕ) (mp : List Polygon) (i j : ℕ) :
    (buildMask r rows cols mp).cell i j = true ↔
      ∃ poly ∈ mp, inPolygon (latticePt r rows cols i j) poly = true :=
  maskCell_true_iff r rows cols mp i j

/-- C6: permuting the polygons of the multi-polygon leaves the mask
unchanged at every cell. -/
theorem mask_order_independence (mp mp' : List Polygon) (h : mp.Perm mp')
    (r : Region) (rows cols i j : ℕ) :
    (buildMask r rows cols mp).cell i j = (buildMask r rows cols mp').cell i j := by
  have hiff : ((buildMask r rows cols mp).cell i j = true) ↔
      ((buildMask r rows cols mp').cell i j = true) := by
    rw [maskCell_true_iff, maskCell_true_iff]
    constructor
    · rintro ⟨poly, hmem, hin⟩
      exact ⟨poly, h.mem_iff.mp hmem, hin⟩
    · rintro ⟨poly, hmem, hin⟩
      exact ⟨poly, h.mem_iff.mpr hmem, hin⟩
  cases h1 : (buildMask r rows cols mp).cell i j <;>
    cases h2 : (buildMask r rows cols mp').cell i j <;> simp_all

/-- Witness for `mask_order_independence`: two concrete triangles in
swapped order give the same mask cell. -/
theorem mask_order_independence_witness :
    (buildMask ⟨0, 4, 0, 4⟩ 2 2
      [⟨[⟨0, 0⟩, ⟨4, 0⟩, ⟨0, 4⟩], []⟩, ⟨[⟨1, 1⟩, ⟨3, 1⟩, ⟨1, 3⟩], []⟩]).cell 0 0 =
    (buildMask ⟨0, 4, 0, 4⟩ 2 2
      [⟨[⟨1, 1⟩, ⟨3, 1⟩, ⟨1, 3⟩], []⟩, ⟨[⟨0, 0⟩, ⟨4, 0⟩, ⟨0, 4⟩], []⟩]).cell 0 0 :=
  mask_order_independence _ _
    (List.Perm.swap ⟨[⟨1, 1⟩, ⟨3, 1⟩, ⟨1, 3⟩], []⟩ ⟨[⟨0, 0⟩, ⟨4, 0⟩, ⟨0, 4⟩], []⟩ [])
    ⟨0, 4, 0, 4⟩ 2 2 0 0

/-- C8: with an empty multi-polygon the mask is false at every cell and
the composed field is `missing` at every cell, with no error raised:
composition still succeeds. -/
theorem degenerate_empty_boundary (r : Region) (rows cols : ℕ) (f : FieldGrid)
    (h1 : f.rows = rows) (h2 : f.cols = cols) :
    (∀ i j, (buildMask r rows cols ([] : List Polygon)).cell i j = false) ∧
    (∃ g, compose f (buildMask r rows cols ([] : List Polygon)) = .ok g ∧
      ∀ i j, g.cell i j = none) := by
  constructor
  · intro i j
    rfl
  · refine ⟨⟨f.rows, f.cols, fun i j =>
      if (buildMask r rows cols ([] : List Polygon)).cell i j then f.cell i j else none⟩, ?_, ?_⟩
    · simp [compose, buildMask, h1, h2]
    · intro i j
      rfl

/-- Witness for `degenerate_empty_boundary` on a concrete `3 × 3` field. -/
theorem degenerate_empty_boundary_witness :
    (∀ i j, (buildMask ⟨0, 1, 0, 1⟩ 3 3 ([] : List Polygon)).cell i j = false) ∧
    (∃ g, compose (constField 3 3 10) (buildMask ⟨0, 1, 0, 1⟩ 3 3 ([] : List Polygon)) = .ok g ∧
      ∀ i j, g.cell i j = none) :=
  degenerate_empty_boundary ⟨0, 1, 0, 1⟩ 3 3 (constField 3 3 10) rfl rfl

/-- C1 counterexample: three non-collinear samples at `(0,0)`, `(4,0)`,
`(0,4)` over the region `[0,4] × [0,4]` with a `2 × 2` lattice leave the
interpolated field `missing` at lattice cell `(1,1)` (the corner `(4,4)`,
outside the samples' convex hull) — the field produced by the interpolator
is not defined at every lattice point, because no fallback/merge pass
exists in the source. -/
theorem interpolation_totality_counterexample :
    3 ≤ ([⟨0, 0, 1⟩, ⟨4, 0, 2⟩, ⟨0, 4, 3⟩] : List Sample).length ∧
    allCollinear [⟨0, 0, 1⟩, ⟨4, 0, 2⟩, ⟨0, 4, 3⟩] = false ∧
    fieldCell (interpolate [⟨0, 0, 1⟩, ⟨4, 0, 2⟩, ⟨0, 4, 3⟩] ⟨0, 4, 0, 4⟩ 2 2) 1 1
      = some none := by
  refine ⟨by decide, ?_, ?_⟩
  · norm_num [allCollinear, distinctTriples, distinctPairs, cross, spt]
  · norm_num [fieldCell, interpolate, allCollinear, distinctTriples, distinctPairs,
      griddataLinear, inTriangle, cross, spt, onSeg, latticePt]

/-- C1 amended: the interpolator performs only the primary linear pass
with `missing` fill; at every lattice cell whose point lies outside the
convex hull of the samples the produced field is `missing` — the
nearest-sample fallback substitution of the claim does not happen. -/
theorem interpolation_no_fallback (samples : List Sample) (r : Region)
    (rows cols i j : ℕ) (h3 : 3 ≤ samples.length) (hnc : allCollinear samples = false)
    (hout : inHull samples (latticePt r rows cols i j) = false) :
    fieldCell (interpolate samples r rows cols) i j = some none := by
  have hlen : ¬ samples.length < 3 := not_lt.mpr h3
  have hnone : (distinctTriples samples).find?
      (fun t => inTriangle (spt t.1) (spt t.2.1) (spt t.2.2) (latticePt r rows cols i j))
        = none := by
    rw [List.find?_eq_none]
    intro t ht
    have := List.any_eq_false.mp hout t ht
    simpa using this
  simp [interpolate, hlen, hnc, fieldCell, griddataLinear, hnone]

/-- Witness for `interpolation_no_fallback` at a concrete out-of-hull
lattice cell. -/
theorem interpolation_no_fallback_witness :
    fieldCell (interpolate [⟨0, 0, 5⟩, ⟨2, 0, 6⟩, ⟨0, 2, 7⟩] ⟨0, 2, 0, 2⟩ 2 2) 1 1
      = some none :=
  interpolation_no_fallback [⟨0, 0, 5⟩, ⟨2, 0, 6⟩, ⟨0, 2, 7⟩] ⟨0, 2, 0, 2⟩ 2 2 1 1
    (by decide)
    (by norm_num [allCollinear, distinctTriples, distinctPairs, cross, spt])
    (by norm_num [inHull, distinctTriples, distinctPairs, inTriangle, cross, spt, onSeg,
      latticePt])

theorem flips_parity (b : α → Bool) (l : List α) :
    ∀ x y : α, flips b (x :: (l ++ [y])) % 2 = if b x = b y then 0 else 1 := by
  induction l with
  | nil =>
    intro x y
    cases hbx : b x <;> cases hby : b y <;> simp [flips, hbx, hby]
  | cons a l ih =>
    intro x y
    have hstep : flips b (x :: ((a :: l) ++ [y]))
        = (if b x != b a then 1 else 0) + flips b (a :: (l ++ [y])) := rfl
    rw [hstep, Nat.add_mod, ih a y]
    cases hbx : b x <;> cases hba : b a <;> cases hby : b y <;> simp [hbx, hba, hby]

theorem countP_zip_flips (b : α → Bool) :
    ∀ (l : List α) (z : α),
      (l.zip (l.tail ++ [z])).countP (fun e => b e.1 != b e.2) = flips b (l ++ [z]) := by
  intro l
  induction l with
  | nil => intro z; simp [flips]
  | cons x xs ih =>
    intro z
    cases xs with
    | nil => simp [flips, List.countP_cons]
    | cons y t =>
      have hz : ((x :: y :: t).zip ((x :: y :: t).tail ++ [z]))
          = (x, y) :: ((y :: t).zip ((y :: t).tail ++ [z])) := rfl
      have hf : flips b ((x :: y :: t) ++ [z])
          = (if b x != b y then 1 else 0) + flips b ((y :: t) ++ [z]) := rfl
      rw [hz, hf, List.countP_cons, ih z, Nat.add_comm]

theorem edges_straddle_even (b : Pt → Bool) (ring : List Pt) :
    ((edges ring).countP (fun e => b e.1 != b e.2)) % 2 = 0 := by
  cases ring with
  | nil => simp [edges]
  | cons v vs =>
    have hrot : (v :: vs).rotate 1 = vs ++ [v] := by
      rw [List.rotate_cons_succ, List.rotate_zero]
    have htail : (v :: vs).tail ++ [v] = vs ++ [v] := rfl
    rw [edges, hrot, ← htail, countP_zip_flips,
      show (v :: vs) ++ [v] = v :: (vs ++ [v]) from rfl, flips_parity]
    simp

theorem edge_endpoints_mem {ring : List Pt} {e : Pt × Pt} (h : e ∈ edges ring) :
    e.1 ∈ ring ∧ e.2 ∈ ring := by
  obtain ⟨h1, h2⟩ := List.of_mem_zip h
  exact ⟨h1, List.mem_rotate.mp h2⟩

theorem straddle_cases {p a b : Pt}
    (h : (decide (a.y > p.y) != decide (b.y > p.y)) = true) :
    (a.y ≤ p.y ∧ p.y < b.y) ∨ (b.y ≤ p.y ∧ p.y < a.y) := by
  by_cases h1 : a.y > p.y
  · by_cases h2 : b.y > p.y
    · simp [h1, h2] at h
    · exact Or.inr ⟨le_of_not_lt h2, h1⟩
  · by_cases h2 : b.y > p.y
    · exact Or.inl ⟨le_of_not_lt h1, h2⟩
    · simp [h1, h2] at h

theorem cross_decomp (a b p : Pt) :
    cross a b p = (b.x - p.x) * (p.y - a.y) + (a.x - p.x) * (b.y - p.y) := by
  unfold cross
  ring

theorem inRing_false_of_const_side (p : Pt) (ring : List Pt) (c : Bool)
    (h : ∀ v ∈ ring, decide (v.y > p.y) = c) : inRing p ring = false := by
  have hcount : (edges ring).countP (crossesRay p) = 0 := by
    rw [List.countP_eq_zero]
    intro e he
    obtain ⟨h1, h2⟩ := edge_endpoints_mem he
    simp only [crossesRay, Bool.and_eq_true, bne_iff_ne, ne_eq, not_and]
    intro hne
    exact absurd (Eq.trans (h e.1 h1) (h e.2 h2).symm) hne
  simp [inRing, hcount]

theorem inRing_false_of_right (p : Pt) (ring : List Pt)
    (h : ∀ v ∈ ring, v.x < p.x) : inRing p ring = false := by
  have hcount : (edges ring).countP (crossesRay p) = 0 := by
    rw [List.countP_eq_zero]
    intro e he
    obtain ⟨h1, h2⟩ := edge_endpoints_mem he
    have hx1 : e.1.x < p.x := h e.1 h1
    have hx2 : e.2.x < p.x := h e.2 h2
    simp only [crossesRay, Bool.and_eq_true, not_and]
    intro hstrad
    rcases straddle_cases hstrad with ⟨hay, hby⟩ | ⟨hby, hay⟩
    · have hygt : e.2.y > e.1.y := lt_of_le_of_lt hay hby
      rw [if_pos hygt]
      simp only [decide_eq_true_eq, not_lt]
      rw [cross_decomp]
      nlinarith
    · have hygt : ¬ e.2.y > e.1.y := not_lt.mpr (le_of_lt (lt_of_le_of_lt hby hay))
      rw [if_neg hygt]
      simp only [decide_eq_true_eq, not_lt]
      rw [cross_decomp]
      nlinarith
  simp [inRing, hcount]

theorem inRing_false_of_left (p : Pt) (ring : List Pt)
    (h : ∀ v ∈ ring, p.x < v.x) : inRing p ring = false := by
  have hcong : (edges ring).countP (crossesRay p)
      = (edges ring).countP (fun e => decide (e.1.y > p.y) != decide (e.2.y > p.y)) := by
    apply List.countP_congr
    intro e he
    obtain ⟨h1, h2⟩ := edge_endpoints_mem he
    have hx1 : p.x < e.1.x := h e.1 h1
    have hx2 : p.x < e.2.x := h e.2 h2
    simp only [crossesRay, Bool.and_eq_true]
    constructor
    · rintro ⟨hs, _⟩
      exact hs
    · intro hs
      refine ⟨hs, ?_⟩
      rcases straddle_cases hs with ⟨hay, hby⟩ | ⟨hby, hay⟩
      · have hygt : e.2.y > e.1.y := lt_of_le_of_lt hay hby
        rw [if_pos hygt]
        simp only [decide_eq_true_eq]
        rw [cross_decomp]
        nlinarith
      · have hygt : ¬ e.2.y > e.1.y := not_lt.mpr (le_of_lt (lt_of_le_of_lt hby hay))
        rw [if_neg hygt]
        simp only [decide_eq_true_eq]
        rw [cross_decomp]
        nlinarith
  have heven := edges_straddle_even (fun v => decide (v.y > p.y)) ring
  rw [inRing, hcong]
  simp only at heven
  rw [heven]
  rfl

theorem foldl_boxAdd_bounds (l : List Pt) : ∀ b0 : Box,
    ((l.foldl boxAdd b0).minx ≤ b0.minx ∧ b0.maxx ≤ (l.foldl boxAdd b0).maxx ∧
      (l.foldl boxAdd b0).miny ≤ b0.miny ∧ b0.maxy ≤ (l.foldl boxAdd b0).maxy) ∧
    ∀ q ∈ l, (l.foldl boxAdd b0).minx ≤ q.x ∧ q.x ≤ (l.foldl boxAdd b0).maxx ∧
      (l.foldl boxAdd b0).miny ≤ q.y ∧ q.y ≤ (l.foldl boxAdd b0).maxy := by
  induction l with
  | nil => intro b0; simp
  | cons q l ih =>
    intro b0
    have hfold : (q :: l).foldl boxAdd b0 = l.foldl boxAdd (boxAdd b0 q) := rfl
    obtain ⟨⟨ha1, ha2, ha3, ha4⟩, helem⟩ := ih (boxAdd b0 q)
    rw [hfold]
    refine ⟨⟨?_, ?_, ?_, ?_⟩, ?_⟩
    · exact le_trans ha1 (min_le_left _ _)
    · exact le_trans (le_max_left _ _) ha2
    · exact le_trans ha3 (min_le_left _ _)
    · exact le_trans (le_max_left _ _) ha4
    · intro v hv
      rcases List.mem_cons.mp hv with hveq | hvmem
      · subst hveq
        exact ⟨le_trans ha1 (min_le_right _ _), le_trans (le_max_right _ _) ha2,
          le_trans ha3 (min_le_right _ _), le_trans (le_max_right _ _) ha4⟩
      · exact helem v hvmem

theorem ringBox_bounds {ring : List Pt} {v : Pt} (h : v ∈ ring) :
    (ringBox ring).minx ≤ v.x ∧ v.x ≤ (ringBox ring).maxx ∧
      (ringBox ring).miny ≤ v.y ∧ v.y ≤ (ringBox ring).maxy := by
  cases ring with
  | nil => cases h
  | cons v0 vs =>
    obtain ⟨⟨ha1, ha2, ha3, ha4⟩, helem⟩ := foldl_boxAdd_bounds vs ⟨v0.x, v0.x, v0.y, v0.y⟩
    rcases List.mem_cons.mp h with hveq | hvmem
    · subst hveq
      exact ⟨ha1, ha2, ha3, ha4⟩
    · exact helem v hvmem

theorem inPolygon_false_of_box_separated (p : Pt) (poly : Polygon) (bx : Box)
    (hsep : boxIntersects (polyBox poly) bx = false)
    (hx1 : bx.minx ≤ p.x) (hx2 : p.x ≤ bx.maxx)
    (hy1 : bx.miny ≤ p.y) (hy2 : p.y ≤ bx.maxy) : inPolygon p poly = false := by
  have houter : inRing p poly.outer = false := by
    simp only [boxIntersects, Bool.and_eq_false_iff, decide_eq_false_iff_not, not_le] at hsep
    rcases hsep with ((hcase | hcase) | hcase) | hcase
    · -- polygon box entirely to the right of the region box
      apply inRing_false_of_left
      intro v hv
      have hb := (ringBox_bounds hv).1
      calc p.x ≤ bx.maxx := hx2
        _ < (polyBox poly).minx := hcase
        _ ≤ v.x := hb
    · -- polygon box entirely to the left of the region box
      apply inRing_false_of_right
      intro v hv
      have hb := (ringBox_bounds hv).2.1
      calc v.x ≤ (polyBox poly).maxx := hb
        _ < bx.minx := hcase
        _ ≤ p.x := hx1
    · -- polygon box entirely above the region box
      apply inRing_false_of_const_side p poly.outer true
      intro v hv
      have hb := (ringBox_bounds hv).2.2.1
      simp only [decide_eq_true_eq]
      calc p.y ≤ bx.maxy := hy2
        _ < (polyBox poly).miny := hcase
        _ ≤ v.y := hb
    · -- polygon box entirely below the region box
      apply inRing_false_of_const_side p poly.outer false
      intro v hv
      have hb := (ringBox_bounds hv).2.2.2
      simp only [decide_eq_false_iff_not, not_lt]
      exact le_of_lt (lt_of_le_of_lt hb (lt_of_lt_of_le hcase hy1))
  simp [inPolygon, houter]

theorem affine_bound {lo hival : ℚ} (hlh : lo < hival) (n i : ℕ) (hin : i < n) :
    lo ≤ lo + (i : ℚ) * ((hival - lo) / ((n : ℚ) - 1)) ∧
      lo + (i : ℚ) * ((hival - lo) / ((n : ℚ) - 1)) ≤ hival := by
  rcases Nat.lt_or_ge n 2 with h2 | h2
  · have hn1 : n = 1 := by omega
    have hi0 : i = 0 := by omega
    subst hn1
    subst hi0
    constructor
    · simp
    · simp
      linarith
  · have hd : (0 : ℚ) < (n : ℚ) - 1 := by
      have : (2 : ℚ) ≤ (n : ℚ) := by exact_mod_cast h2
      linarith
    have hdx : 0 ≤ (hival - lo) / ((n : ℚ) - 1) := div_nonneg (by linarith) (le_of_lt hd)
    have hi0 : (0 : ℚ) ≤ (i : ℚ) := Nat.cast_nonneg i
    constructor
    · nlinarith
    · have hile : (i : ℚ) ≤ (n : ℚ) - 1 := by
        have : ((i : ℚ) + 1) ≤ (n : ℚ) := by exact_mod_cast hin
        linarith
      have hmul : (i : ℚ) * ((hival - lo) / ((n : ℚ) - 1))
          ≤ ((n : ℚ) - 1) * ((hival - lo) / ((n : ℚ) - 1)) :=
        mul_le_mul_of_nonneg_right hile hdx
      have heq : ((n : ℚ) - 1) * ((hival - lo) / ((n : ℚ) - 1)) = hival - lo := by
        field_simp
      linarith

theorem latticePt_in_region (r : Region) (rows cols i j : ℕ) (hv : r.valid)
    (hi : i < rows) (hj : j < cols) :
    r.minx ≤ (latticePt r rows cols i j).x ∧ (latticePt r rows cols i j).x ≤ r.maxx ∧
      r.miny ≤ (latticePt r rows cols i j).y ∧ (latticePt r rows cols i j).y ≤ r.maxy := by
  obtain ⟨hx1, hx2⟩ := affine_bound hv.1 rows i hi
  obtain ⟨hy1, hy2⟩ := affine_bound hv.2 cols j hj
  exact ⟨hx1, hx2, hy1, hy2⟩

/-- C2: the per-polygon bounding-box pre-filtered mask (spec §4.3, with
any non-negative safety margin) agrees with the brute-force mask that
tests every lattice point against every polygon, at every lattice cell. -/
theorem bbox_prefilter_equivalence (r : Region) (eps : ℚ) (mp : List Polygon)
    (rows cols i j : ℕ) (hv : r.valid) (heps : 0 ≤ eps) (hi : i < rows) (hj : j < cols) :
    maskFilteredAt (expandBox (regionBox r) eps) mp (latticePt r rows cols i j)
      = (buildMask r rows cols mp).cell i j := by
  obtain ⟨hx1, hx2, hy1, hy2⟩ := latticePt_in_region r rows cols i j hv hi hj
  rw [show (buildMask r rows cols mp).cell i j
    = unionWithin mp (latticePt r rows cols i j) from rfl, unionWithin_eq_any]
  unfold maskFilteredAt
  induction mp with
  | nil => rfl
  | cons poly mps ih =>
    by_cases hkeep : boxIntersects (polyBox poly) (expandBox (regionBox r) eps) = true
    · simp only [List.filter_cons, hkeep, if_true, List.any_cons]
      rw [ih]
    · have hkeep' : boxIntersects (polyBox poly) (expandBox (regionBox r) eps) = false :=
        Bool.eq_false_iff.mpr hkeep
      have hout : inPolygon (latticePt r rows cols i j) poly = false := by
        apply inPolygon_false_of_box_separated _ _ _ hkeep'
        · show (expandBox (regionBox r) eps).minx ≤ _
          simp only [expandBox, regionBox]
          linarith
        · show _ ≤ (expandBox (regionBox r) eps).maxx
          simp only [expandBox, regionBox]
          linarith
        · show (expandBox (regionBox r) eps).miny ≤ _
          simp only [expandBox, regionBox]
          linarith
        · show _ ≤ (expandBox (regionBox r) eps).maxy
          simp only [expandBox, regionBox]
          linarith
      simp only [List.filter_cons, hkeep', Bool.false_eq_true, if_false, List.any_cons,
        hout, Bool.false_or]
      exact ih

/-- Witness for `bbox_prefilter_equivalence`: a far-away triangle over a
unit region with zero margin. -/
theorem bbox_prefilter_equivalence_witness :
    maskFilteredAt (expandBox (regionBox ⟨0, 1, 0, 1⟩) 0)
      [⟨[⟨10, 10⟩, ⟨12, 10⟩, ⟨10, 12⟩], []⟩] (latticePt ⟨0, 1, 0, 1⟩ 2 2 0 0)
      = (buildMask ⟨0, 1, 0, 1⟩ 2 2 [⟨[⟨10, 10⟩, ⟨12, 10⟩, ⟨10, 12⟩], []⟩]).cell 0 0 :=
  bbox_prefilter_equivalence ⟨0, 1, 0, 1⟩ 0 [⟨[⟨10, 10⟩, ⟨12, 10⟩, ⟨10, 12⟩], []⟩] 2 2 0 0
    ⟨by norm_num, by norm_num⟩ (le_refl 0) (by decide) (by decide)

/-- C10 counterexample: at `temp = -237.7` the denominator of the vapour
pressure exponent vanishes, the source's `try/except` returns `None`, and
the function does not return the claimed formula value. -/
theorem apparent_temp_pole_counterexample :
    calculate_apparent_temp (-237.7) 50 1 = none := by
  unfold calculate_apparent_temp
  rw [if_pos (by norm_num : (237.7 : ℝ) + -237.7 = 0)]

/-- C10 amended: for every `temp > -237.7` — where neither the pole nor an
`exp` overflow can occur, the exponent being bounded above by `17.27`
there — the function returns
`temp + 0.33·e − 0.70·max(wind_speed, 0) − 4.00` with
`e = (clamp(humid,0,100)/100)·6.105·exp(17.27·temp/(237.7+temp))`; in
particular any `humid > 100` gives the same result as `humid = 100`, and
any `wind_speed < 0` the same result as `wind_speed = 0`.  (For
`temp = -237.7` and for `temp` in about `(-243.63, -237.7)` the function
instead returns `None`.) -/
theorem apparent_temp_formula (temp humid wind_speed : ℝ) (h : -237.7 < temp) :
    calculate_apparent_temp temp humid wind_speed
      = some (temp + 0.33 * ((max 0 (min 100 humid) / 100) * 6.105 *
          Real.exp ((17.27 * temp) / (237.7 + temp))) - 0.70 * max wind_speed 0 - 4.00) ∧
    (100 < humid → calculate_apparent_temp temp humid wind_speed
      = calculate_apparent_temp temp 100 wind_speed) ∧
    (wind_speed < 0 → calculate_apparent_temp temp humid wind_speed
      = calculate_apparent_temp temp humid 0) := by
  have hd : (0 : ℝ) < 237.7 + temp := by linarith
  have hne : 237.7 + temp ≠ 0 := ne_of_gt hd
  have hnov : ¬ exp_overflow_bound < (17.27 * temp) / (237.7 + temp) := by
    rw [not_lt, div_le_iff₀ hd]
    unfold exp_overflow_bound
    nlinarith
  refine ⟨?_, ?_, ?_⟩
  · unfold calculate_apparent_temp
    rw [if_neg hne, if_neg hnov]
  · intro h100
    unfold calculate_apparent_temp
    rw [if_neg hne, if_neg hnov, if_neg hne, if_neg hnov,
      min_eq_left (le_of_lt h100), min_self]
  · intro hw
    unfold calculate_apparent_temp
    rw [if_neg hne, if_neg hnov, if_neg hne, if_neg hnov,
      max_eq_right (le_of_lt hw), max_self]

/-- Witness for `apparent_temp_formula` at `temp = 20`, an over-range
humidity `150`, and a negative wind speed `-1`. -/
theorem apparent_temp_formula_witness :
    ((-237.7 : ℝ) < 20) ∧
    (calculate_apparent_temp 20 150 (-1)
      = some (20 + 0.33 * ((max 0 (min 100 150) / 100) * 6.105 *
          Real.exp ((17.27 * 20) / (237.7 + 20))) - 0.70 * max (-1) 0 - 4.00) ∧
    ((100 : ℝ) < 150 → calculate_apparent_temp 20 150 (-1)
      = calculate_apparent_temp 20 100 (-1)) ∧
    ((-1 : ℝ) < 0 → calculate_apparent_temp 20 150 (-1)
      = calculate_apparent_temp 20 150 0)) :=
  ⟨by norm_num, apparent_temp_formula 20 150 (-1) (by norm_num)⟩

theorem processRecord_mainland {rec : RawRecord} {dp : DataPoint}
    (h : processRecord rec = some (.mainland, dp)) :
    -15 ≤ dp.temp ∧ dp.temp ≤ 55 ∧ 119.0 ≤ dp.lon ∧ dp.lon ≤ 122.5 ∧
      21.5 ≤ dp.lat ∧ dp.lat ≤ 25.5 ∧ dp.city ∉ km_matsu_counties ∧
      ∃ hu w, 0 ≤ hu ∧ hu ≤ 100 ∧ calculate_apparent_temp dp.temp hu w = some dp.atemp := by
  rcases hLat : rec.lat with _ | lat <;> rcases hLon : rec.lon with _ | lon <;>
    rcases hTemp : rec.temp with _ | temp <;> rcases hHumid : rec.humid with _ | humid <;>
    rcases hWind : rec.wind with _ | wind <;>
    simp only [processRecord, hLat, hLon, hTemp, hHumid, hWind] at h <;>
    try exact Option.noConfusion h
  rcases hat : calculate_apparent_temp temp humid wind with _ | a
  · simp only [hat] at h
    split_ifs at h
  · simp only [hat] at h
    split_ifs at h with hfilter hkm hcoord
    · have hcon : Route.km = Route.mainland := congrArg Prod.fst (Option.some.inj h)
      exact Route.noConfusion hcon
    · push_neg at hfilter
      obtain ⟨ht1, ht2, hh1, hh2⟩ := hfilter
      have hdp := congrArg Prod.snd (Option.some.inj h)
      subst hdp
      exact ⟨ht1, ht2, hcoord.1, hcoord.2.1, hcoord.2.2.1, hcoord.2.2.2, hkm,
        ⟨humid, wind, hh1, hh2, hat⟩⟩

theorem processRecord_route_km {rec : RawRecord} {route : Route} {dp : DataPoint}
    (h : processRecord rec = some (route, dp)) (hc : dp.city ∈ km_matsu_counties) :
    route = .km := by
  rcases hLat : rec.lat with _ | lat <;> rcases hLon : rec.lon with _ | lon <;>
    rcases hTemp : rec.temp with _ | temp <;> rcases hHumid : rec.humid with _ | humid <;>
    rcases hWind : rec.wind with _ | wind <;>
    simp only [processRecord, hLat, hLon, hTemp, hHumid, hWind] at h <;>
    try exact Option.noConfusion h
  rcases hat : calculate_apparent_temp temp humid wind with _ | a
  · simp only [hat] at h
    split_ifs at h
  · simp only [hat] at h
    split_ifs at h with hfilter hkm hcoord
    · have hroute : Route.km = route := congrArg Prod.fst (Option.some.inj h)
      exact hroute.symm
    · have hdp : (⟨rec.name, lat, lon, temp, a, rec.city, rec.town⟩ : DataPoint) = dp :=
        congrArg Prod.snd (Option.some.inj h)
      rw [← hdp] at hc
      exact absurd hc hkm

theorem process_data_mainland_mem {rs : List RawRecord} {dp : DataPoint}
    (h : dp ∈ (process_data rs).1) :
    ∃ rec ∈ rs, processRecord rec = some (.mainland, dp) := by
  induction rs with
  | nil => cases h
  | cons rec rs ih =>
    rcases hr : processRecord rec with _ | rdp
    · rw [show process_data (rec :: rs) = process_data rs by
        simp only [process_data, hr]] at h
      obtain ⟨rec', hmem, hrec'⟩ := ih h
      exact ⟨rec', List.mem_cons_of_mem _ hmem, hrec'⟩
    · obtain ⟨route, dp'⟩ := rdp
      cases route with
      | mainland =>
        rw [show process_data (rec :: rs)
            = (dp' :: (process_data rs).1, (process_data rs).2) by
          simp only [process_data, hr]] at h
        rcases List.mem_cons.mp h with heq | hmem
        · exact ⟨rec, List.mem_cons_self _ _, by rw [hr, heq]⟩
        · obtain ⟨rec', hmem', hrec'⟩ := ih hmem
          exact ⟨rec', List.mem_cons_of_mem _ hmem', hrec'⟩
      | km =>
        rw [show process_data (rec :: rs)
            = ((process_data rs).1, dp' :: (process_data rs).2) by
          simp only [process_data, hr]] at h
        obtain ⟨rec', hmem', hrec'⟩ := ih h
        exact ⟨rec', List.mem_cons_of_mem _ hmem', hrec'⟩

theorem process_data_km_mem {rs : List RawRecord} {rec : RawRecord} {dp : DataPoint}
    (hmem : rec ∈ rs) (h : processRecord rec = some (.km, dp)) :
    dp ∈ (process_data rs).2 := by
  induction rs with
  | nil => cases hmem
  | cons r rs ih =>
    rcases List.mem_cons.mp hmem with heq | hmem'
    · subst heq
      rw [show process_data (rec :: rs) = ((process_data rs).1, dp :: (process_data rs).2) by
        simp only [process_data, h]]
      exact List.mem_cons_self _ _
    · have htail : dp ∈ (process_data rs).2 := ih hmem'
      rcases hr : processRecord r with _ | rdp
      · rw [show process_data (r :: rs) = process_data rs by simp only [process_data, hr]]
        exact htail
      · obtain ⟨route, dp'⟩ := rdp
        cases route with
        | mainland =>
          rw [show process_data (r :: rs)
              = (dp' :: (process_data rs).1, (process_data rs).2) by
            simp only [process_data, hr]]
          exact htail
        | km =>
          rw [show process_data (r :: rs)
              = ((process_data rs).1, dp' :: (process_data rs).2) by
            simp only [process_data, hr]]
          exact List.mem_cons_of_mem _ htail

/-- C9: every record in the mainland DataFrame produced by `process_data`
has temperature in `[-15, 55]`, coordinates inside the
`[119, 122.5] × [21.5, 25.5]` window, a county outside the Kinmen/Matsu
set, and an apparent temperature successfully computed (non-`None`) from a
humidity in `[0, 100]`; and a record whose county is in the Kinmen/Matsu
set is routed to the Kinmen/Matsu DataFrame regardless of its
coordinates. -/
theorem mainland_record_invariants :
    (∀ rs dp, dp ∈ (process_data rs).1 →
      -15 ≤ dp.temp ∧ dp.temp ≤ 55 ∧ 119.0 ≤ dp.lon ∧ dp.lon ≤ 122.5 ∧
        21.5 ≤ dp.lat ∧ dp.lat ≤ 25.5 ∧ dp.city ∉ km_matsu_counties ∧
        ∃ hu w, 0 ≤ hu ∧ hu ≤ 100 ∧ calculate_apparent_temp dp.temp hu w = some dp.atemp) ∧
    (∀ rec route dp, processRecord rec = some (route, dp) →
      dp.city ∈ km_matsu_counties → route = .km) ∧
    (∀ rs rec dp, rec ∈ rs → processRecord rec = some (.km, dp) →
      dp ∈ (process_data rs).2) := by
  refine ⟨?_, ?_, ?_⟩
  · intro rs dp h
    obtain ⟨rec, _, hrec⟩ := process_data_mainland_mem h
    exact processRecord_mainland hrec
  · intro rec route dp h hc
    exact processRecord_route_km h hc
  · intro rs rec dp hmem h
    exact process_data_km_mem hmem h

/-- Witness for `mainland_record_invariants` on a concrete single-record
input. -/
theorem mainland_record_invariants_witness :
    sampleDataPoint ∈ (process_data [sampleRawRecord]).1 ∧
    (-15 ≤ sampleDataPoint.temp ∧ sampleDataPoint.temp ≤ 55 ∧
      119.0 ≤ sampleDataPoint.lon ∧ sampleDataPoint.lon ≤ 122.5 ∧
      21.5 ≤ sampleDataPoint.lat ∧ sampleDataPoint.lat ≤ 25.5 ∧
      sampleDataPoint.city ∉ km_matsu_counties ∧
      ∃ hu w, 0 ≤ hu ∧ hu ≤ 100 ∧
        calculate_apparent_temp sampleDataPoint.temp hu w = some sampleDataPoint.atemp) := by
  have hm : sampleDataPoint ∈ (process_data [sampleRawRecord]).1 := by
    simp only [process_data, processRecord, sampleRawRecord, calculate_apparent_temp]
    norm_num [km_matsu_counties, sampleDataPoint, exp_overflow_bound]
    rw [if_neg (by decide : ¬("臺北市" = "金門縣" ∨ "臺北市" = "連江縣"))]
    exact List.mem_singleton.mpr rfl
  exact ⟨hm, mainland_record_invariants.1 [sampleRawRecord] sampleDataPoint hm⟩

end Heatmap

